import Mathlib

/-!
Formal model of the request-serialization bridge and hardware-abstraction
capability bundle of the nonsecure Gatekeeper/KeyMint HAL services
(`gatekeeper/aidl/software/rust/main.rs`, `gatekeeper/aidl/software/rust/ta/lib.rs`,
`security/keymint/aidl/default/main.rs`), with theorems settling the
specification claims about them.
-/

/-- Byte buffers (`Vec<u8>` / `&[u8]`): opaque ordered sequences of bytes,
modelled as lists of naturals. -/
abbrev Bytes := List Nat

/- ## Failure-Record Store (`StdFilesystem` in `ta/lib.rs`) -/

/-- Abstraction of a `std::io::Error` kind as seen by `StdFilesystem`:
either the natural not-found condition (`ENOENT`) or any other I/O or
system-call fault. -/
inductive IoError where
  | enoent
  | fault
  deriving DecidableEq, Repr

/-- `gk_ta::Error` variants produced by the storage layer. -/
inductive Error where
  | NotFound
  | Internal
  deriving DecidableEq, Repr

/-- State of the backing flat directory: whether the directory itself exists,
and the named blob files inside it (association list keyed by filename). -/
structure Disk where
  dirExists : Bool
  files : List (String × Bytes)
  deriving DecidableEq, Repr

/-- Contents stored under a filename, if any. -/
def lookupFile (fs : List (String × Bytes)) (name : String) : Option Bytes :=
  (fs.find? (fun p => p.1 = name)).map (fun p => p.2)

/-- Remove any entry stored under a filename. -/
def eraseFile (fs : List (String × Bytes)) (name : String) : List (String × Bytes) :=
  fs.filter (fun p => p.1 ≠ name)

/-- Full replacement of the contents stored under a filename
(`std::fs::write` truncates and rewrites the whole file). -/
def setFile (fs : List (String × Bytes)) (name : String) (v : Bytes) :
    List (String × Bytes) :=
  (name, v) :: eraseFile fs name

/-- Underlying `std::fs::read`: an injected I/O fault or a missing
directory/file yields an error, otherwise the blob contents. The `fault` flag
models any I/O or system-call failure other than the path being absent. -/
def fsRead (fault : Bool) (d : Disk) (name : String) : Except IoError Bytes :=
  if fault then .error .fault
  else if !d.dirExists then .error .enoent
  else match lookupFile d.files name with
    | some v => .ok v
    | none => .error .enoent

/-- Underlying `std::fs::write`: creates or fully replaces the file; never
creates the directory (writing under a missing directory fails with `ENOENT`).
Returns the result together with the resulting disk state. -/
def fsWrite (fault : Bool) (d : Disk) (name : String) (v : Bytes) :
    Except IoError Unit × Disk :=
  if fault then (.error .fault, d)
  else if !d.dirExists then (.error .enoent, d)
  else (.ok (), { d with files := setFile d.files name v })

/-- Underlying `std::fs::remove_file`: removes the file if present, fails with
`ENOENT` if the path is absent. Never creates the directory. -/
def fsRemoveFile (fault : Bool) (d : Disk) (name : String) :
    Except IoError Unit × Disk :=
  if fault then (.error .fault, d)
  else if !d.dirExists then (.error .enoent, d)
  else match lookupFile d.files name with
    | some _ => (.ok (), { d with files := eraseFile d.files name })
    | none => (.error .enoent, d)

/-- `StdFilesystem::read`: any error from `fs::read` — absence or genuine
I/O fault alike — is mapped to `Error::NotFound` (the `map_err` in the source
logs and returns `Error::NotFound` unconditionally). -/
def StdFilesystem.read (fault : Bool) (d : Disk) (name : String) :
    Except Error Bytes :=
  match fsRead fault d name with
  | .ok v => .ok v
  | .error _ => .error .NotFound

/-- `StdFilesystem::write`: any error from `fs::write` is mapped to
`Error::Internal`. -/
def StdFilesystem.write (fault : Bool) (d : Disk) (name : String) (v : Bytes) :
    Except Error Unit × Disk :=
  match fsWrite fault d name v with
  | (.ok (), d2) => (.ok (), d2)
  | (.error _, d2) => (.error .Internal, d2)

/-- `StdFilesystem::delete`: any error from `fs::remove_file` — absence or
genuine I/O fault alike — is mapped to `Error::NotFound`. -/
def StdFilesystem.delete (fault : Bool) (d : Disk) (name : String) :
    Except Error Unit × Disk :=
  match fsRemoveFile fault d name with
  | (.ok (), d2) => (.ok (), d2)
  | (.error _, d2) => (.error .NotFound, d2)

lemma lookupFile_setFile_self (fs : List (String × Bytes)) (name : String)
    (v : Bytes) : lookupFile (setFile fs name v) name = some v := by
  simp [lookupFile, setFile, List.find?_cons]

lemma lookupFile_eraseFile_self (fs : List (String × Bytes)) (name : String) :
    lookupFile (eraseFile fs name) name = none := by
  have h : List.find? (fun p => p.1 = name) (eraseFile fs name) = none := by
    rw [List.find?_eq_none]
    intro x hx
    have hpred := (List.mem_filter.mp hx).2
    simp at hpred ⊢
    exact hpred
  simp [lookupFile, h]

/-- C2: writing `v` under `name` fully replaces any prior contents, so a
subsequent read returns exactly `v`; and a delete of `name` followed by a read
of `name` fails with `NotFound`, whether or not `name` was present. -/
theorem failure_store_roundtrip (d : Disk) (name : String) (v : Bytes)
    (hdir : d.dirExists = true) :
    (StdFilesystem.write false d name v).1 = .ok () ∧
    lookupFile (StdFilesystem.write false d name v).2.files name = some v ∧
    StdFilesystem.read false (StdFilesystem.write false d name v).2 name = .ok v ∧
    StdFilesystem.read false (StdFilesystem.delete false d name).2 name =
      .error .NotFound := by
  refine ⟨?_, ?_, ?_, ?_⟩
  · simp [StdFilesystem.write, fsWrite, hdir]
  · simp [StdFilesystem.write, fsWrite, hdir, lookupFile_setFile_self]
  · simp [StdFilesystem.write, StdFilesystem.read, fsWrite, fsRead, hdir,
      lookupFile_setFile_self]
  · cases hl : lookupFile d.files name with
    | some w =>
      simp [StdFilesystem.delete, fsRemoveFile, hdir, hl, StdFilesystem.read,
        fsRead, lookupFile_eraseFile_self]
    | none =>
      simp [StdFilesystem.delete, fsRemoveFile, hdir, hl, StdFilesystem.read,
        fsRead]

/-- Witness for C2 at a concrete disk, name and value. -/
theorem failure_store_roundtrip_witness :
    ((⟨true, [("old", [9])]⟩ : Disk).dirExists = true) ∧
    (StdFilesystem.write false ⟨true, [("old", [9])]⟩ "user1" [1, 2, 3]).1 = .ok () ∧
    lookupFile (StdFilesystem.write false ⟨true, [("old", [9])]⟩ "user1"
      [1, 2, 3]).2.files "user1" = some [1, 2, 3] ∧
    StdFilesystem.read false (StdFilesystem.write false ⟨true, [("old", [9])]⟩
      "user1" [1, 2, 3]).2 "user1" = .ok [1, 2, 3] ∧
    StdFilesystem.read false (StdFilesystem.delete false ⟨true, [("old", [9])]⟩
      "user1").2 "user1" = .error .NotFound := by
  have h := failure_store_roundtrip ⟨true, [("old", [9])]⟩ "user1" [1, 2, 3] rfl
  exact ⟨rfl, h.1, h.2.1, h.2.2.1, h.2.2.2⟩

/-- C4 counterexample: an injected I/O fault during `StdFilesystem::read`
(not a missing file — the file is present and the directory exists) is
surfaced as `NotFound`, not `Internal`, contradicting the claim that a fault
in any storage operation is surfaced as `Internal` and never classified as
`NotFound`. -/
theorem read_fault_not_internal_cex :
    StdFilesystem.read true ⟨true, [("user1", [7])]⟩ "user1" =
      .error Error.NotFound ∧
    (StdFilesystem.delete true ⟨true, [("user1", [7])]⟩ "user1").1 =
      .error Error.NotFound ∧
    Error.NotFound ≠ Error.Internal := by
  refine ⟨rfl, rfl, by decide⟩

/- ## Directory enumeration (`StdFilesystem::list` / `StdDirIterator`) -/

/-- A raw directory entry as produced by `std::fs::ReadDir`: either an I/O
error while reading the directory stream, or an entry whose file name may
(`some`) or may not (`none`, non-UTF-8) decode to a string. -/
abbrev RawEntry := Except Unit (Option String)

/-- Whether `StdDirIterator::next` yields a name for this entry and
continues: true exactly for `Ok` entries with a decodable name. -/
def goodEntry : RawEntry → Bool
  | .ok (some _) => true
  | .ok none => false
  | .error _ => false

/-- The decoded name of an entry, when it has one. -/
def entryName : RawEntry → Option String
  | .ok (some s) => some s
  | .ok none => none
  | .error _ => none

/-- The sequence of names produced by draining `StdDirIterator`: `next`
returns the decoded name of the next entry, but returns `None` — ending the
iteration — as soon as an entry fails to decode (`to_str` returns `None`) or
the directory stream yields an error. -/
def stdDirCollect : List RawEntry → List String
  | [] => []
  | .ok (some s) :: rest => s :: stdDirCollect rest
  | .ok none :: _ => []
  | .error _ :: _ => []

/-- `StdFilesystem::list`: a fault in `fs::read_dir` is surfaced as
`Internal`; otherwise the iterator over the raw entries is returned (here
already drained to the name list it will produce). -/
def StdFilesystem.list (fault : Bool) (entries : List RawEntry) :
    Except Error (List String) :=
  if fault then .error .Internal else .ok (stdDirCollect entries)

/-- C4 amended: `read`/`delete` on a name never written fail with `NotFound`;
I/O faults in `write` and `list` are surfaced as `Internal`; but I/O faults in
`read` and `delete` are mapped to `NotFound` (indistinguishable from absence).
No storage error is silently dropped: every operation returns a typed error. -/
theorem storage_error_classification (d : Disk) (name : String) (v : Bytes)
    (hdir : d.dirExists = true) (habsent : lookupFile d.files name = none) :
    StdFilesystem.read false d name = .error .NotFound ∧
    (StdFilesystem.delete false d name).1 = .error .NotFound ∧
    (StdFilesystem.write true d name v).1 = .error .Internal ∧
    (∀ entries : List RawEntry,
      StdFilesystem.list true entries = .error .Internal) ∧
    StdFilesystem.read true d name = .error .NotFound ∧
    (StdFilesystem.delete true d name).1 = .error .NotFound := by
  refine ⟨?_, ?_, ?_, ?_, ?_, ?_⟩
  · simp [StdFilesystem.read, fsRead, hdir, habsent]
  · simp [StdFilesystem.delete, fsRemoveFile, hdir, habsent]
  · simp [StdFilesystem.write, fsWrite]
  · intro entries
    rfl
  · simp [StdFilesystem.read, fsRead]
  · simp [StdFilesystem.delete, fsRemoveFile]

/-- Witness for the amended C4 at a concrete disk, never-written name and
entry list. -/
theorem storage_error_classification_witness :
    ((⟨true, []⟩ : Disk).dirExists = true ∧
      lookupFile (⟨true, []⟩ : Disk).files "fresh" = none) ∧
    StdFilesystem.read false ⟨true, []⟩ "fresh" = .error .NotFound ∧
    (StdFilesystem.write true ⟨true, []⟩ "fresh" [1]).1 = .error .Internal ∧
    StdFilesystem.list true [.ok (some "a")] = .error .Internal :=
  ⟨⟨rfl, rfl⟩,
    (storage_error_classification ⟨true, []⟩ "fresh" [1] rfl rfl).1,
    (storage_error_classification ⟨true, []⟩ "fresh" [1] rfl rfl).2.2.1,
    (storage_error_classification ⟨true, []⟩ "fresh" [1] rfl rfl).2.2.2.1
      [.ok (some "a")]⟩

/-- C5 counterexample: with directory entries `["a", <undecodable>, "b"]`,
the enumeration produces only `["a"]` — the undecodable entry terminates the
iteration instead of being skipped, and the current valid name `"b"` is
missing from the output. -/
theorem list_bad_entry_cex :
    stdDirCollect [.ok (some "a"), .ok none, .ok (some "b")] = ["a"] ∧
    "b" ∉ stdDirCollect [.ok (some "a"), .ok none, .ok (some "b")] := by
  constructor
  · rfl
  · decide

/-- C5 amended: `list()` produces a lazy, finite, one-shot sequence and never
surfaces a per-entry error, but an entry that cannot be decoded (or a read
error in the stream) terminates the enumeration after logging rather than
being skipped: the output is exactly the decoded names of the longest prefix
of good entries, so names after the first bad entry are omitted. -/
theorem list_truncates_at_bad_entry :
    (∀ entries : List RawEntry,
      stdDirCollect entries =
        (entries.takeWhile goodEntry).filterMap entryName) ∧
    (∀ entries : List RawEntry,
      StdFilesystem.list false entries = .ok (stdDirCollect entries)) := by
  constructor
  · intro entries
    induction entries with
    | nil => rfl
    | cons e rest ih =>
      match e with
      | .ok (some s) => simp [stdDirCollect, List.takeWhile, goodEntry, entryName, ih]
      | .ok none => simp [stdDirCollect, List.takeWhile, goodEntry]
      | .error u => simp [stdDirCollect, List.takeWhile, goodEntry]
  · intro entries
    rfl

/- ## Monotonic clock (`StdClock` in `ta/lib.rs`) -/

/-- A `libc::timespec` value as filled in by `clock_gettime(CLOCK_BOOTTIME)`. -/
structure Timespec where
  tv_sec : Int
  tv_nsec : Int
  deriving DecidableEq, Repr

/-- A well-formed `timespec` from a successful `clock_gettime` call:
the nanosecond field lies in `[0, 10^9)`. -/
def ValidTimespec (t : Timespec) : Prop :=
  0 ≤ t.tv_nsec ∧ t.tv_nsec < 1000000000

/-- Ordering of `timespec` readings: the later reading has a larger seconds
field, or the same seconds and no smaller nanoseconds (CLOCK_BOOTTIME is
non-decreasing across calls, including across suspend). -/
def TsLe (t1 t2 : Timespec) : Prop :=
  t1.tv_sec < t2.tv_sec ∨ (t1.tv_sec = t2.tv_sec ∧ t1.tv_nsec ≤ t2.tv_nsec)

/-- `StdClock::now`: if `clock_gettime` fails (`rc < 0`), log a warning and
return 0 milliseconds; otherwise return `tv_sec * 1000 + tv_nsec / 1000 / 1000`
milliseconds. The function is total: it never fails or panics. -/
def stdClockNow (rc : Int) (t : Timespec) : Int :=
  if rc < 0 then 0 else t.tv_sec * 1000 + t.tv_nsec / 1000 / 1000

/-- C6: on failure of the underlying clock primitive, `now` returns 0 (and
never fails the caller); on success, the millisecond count is non-decreasing
across any two calls whose underlying boot-time readings are ordered. -/
theorem stdclock_now_spec :
    (∀ rc t, rc < 0 → stdClockNow rc t = 0) ∧
    (∀ rc1 rc2 t1 t2, 0 ≤ rc1 → 0 ≤ rc2 →
      ValidTimespec t1 → ValidTimespec t2 → TsLe t1 t2 →
      stdClockNow rc1 t1 ≤ stdClockNow rc2 t2) := by
  constructor
  · intro rc t h
    simp [stdClockNow, h]
  · intro rc1 rc2 t1 t2 h1 h2 hv1 hv2 hle
    have n1 : ¬ rc1 < 0 := by omega
    have n2 : ¬ rc2 < 0 := by omega
    simp only [stdClockNow, if_neg n1, if_neg n2]
    rcases hv1 with ⟨a1, b1⟩
    rcases hv2 with ⟨a2, b2⟩
    rcases hle with h | ⟨hs, hn⟩ <;> omega

/-- Witness for C6: a failed call returns 0; two ordered successful readings
give non-decreasing milliseconds. -/
theorem stdclock_now_spec_witness :
    stdClockNow (-1) ⟨5, 0⟩ = 0 ∧
    stdClockNow 0 ⟨5, 400000000⟩ ≤ stdClockNow 0 ⟨6, 0⟩ :=
  ⟨stdclock_now_spec.1 (-1) ⟨5, 0⟩ (by decide),
    stdclock_now_spec.2 0 0 ⟨5, 400000000⟩ ⟨6, 0⟩ (by decide) (by decide)
      (by constructor <;> decide) (by constructor <;> decide)
      (Or.inl (by decide))⟩

/- ## Service startup (`inner_main` in `gatekeeper/.../main.rs`) -/

/-- Location of Gatekeeper failure records (`GK_DIR`). -/
def GK_DIR : String := "/data/vendor/gatekeeper/nonsecure"

/-- Binder service names registered by `inner_main`, in registration order:
first `ISharedSecret/gatekeeper`, then `IGatekeeper/default`. -/
def SS_SERVICE_NAME : String :=
  "android.hardware.security.sharedsecret.ISharedSecret/gatekeeper"

def GK_SERVICE_NAME : String :=
  "android.hardware.gatekeeper.IGatekeeper/default"

/-- Environment observed by `inner_main`: the outcome of `fs::exists` on the
failure-record directory, whether the path is a directory, and whether each
`binder::add_service` call succeeds. -/
structure StartupEnv where
  existsResult : Except String Bool
  is_dir : Bool
  ssRegisterOk : Bool
  gkRegisterOk : Bool

/-- Outcome of `inner_main`: the result it returns, together with the binder
services that were registered before it returned, in order. -/
structure StartupResult where
  outcome : Except String Unit
  registered : List String
  deriving Repr

/-- `inner_main`: checks that the failure-record directory exists and is a
directory before constructing the TA channel and registering any service;
on a failed check it returns the descriptive error with nothing registered. -/
def inner_main (env : StartupEnv) : StartupResult :=
  match env.existsResult with
  | .error e =>
      ⟨.error ("Failed to determine if " ++ GK_DIR ++ " exists: " ++ e), []⟩
  | .ok false =>
      ⟨.error ("Required directory " ++ GK_DIR ++ " does not exist!"), []⟩
  | .ok true =>
      if !env.is_dir then
        ⟨.error ("Required directory " ++ GK_DIR ++ " is not a directory!"), []⟩
      else if !env.ssRegisterOk then
        ⟨.error ("Failed to register service " ++ SS_SERVICE_NAME), []⟩
      else if !env.gkRegisterOk then
        ⟨.error ("Failed to register service " ++ GK_SERVICE_NAME),
          [SS_SERVICE_NAME]⟩
      else
        ⟨.ok (), [SS_SERVICE_NAME, GK_SERVICE_NAME]⟩

/-- C3: if the directory-existence check fails in any way (cannot determine
existence, directory absent, or path not a directory), `inner_main` returns a
descriptive startup error with zero services registered — and the store's own
operations never create the directory (they leave `dirExists` unchanged). -/
theorem startup_gate (env : StartupEnv)
    (hfail : (∃ e, env.existsResult = .error e) ∨ env.existsResult = .ok false ∨
      env.is_dir = false) :
    ((∃ msg, (inner_main env).outcome = .error msg) ∧
      (inner_main env).registered = []) ∧
    (env.existsResult = .ok false →
      (inner_main env).outcome =
        .error ("Required directory " ++ GK_DIR ++ " does not exist!")) ∧
    (env.existsResult = .ok true → env.is_dir = false →
      (inner_main env).outcome =
        .error ("Required directory " ++ GK_DIR ++ " is not a directory!")) ∧
    (∀ fault d name v,
      ((StdFilesystem.write fault d name v).2).dirExists = d.dirExists) ∧
    (∀ fault d name,
      ((StdFilesystem.delete fault d name).2).dirExists = d.dirExists) := by
  have hw : ∀ (fault : Bool) (d : Disk) (name : String) (v : Bytes),
      ((StdFilesystem.write fault d name v).2).dirExists = d.dirExists := by
    intro fault d name v
    cases fault <;> cases hd : d.dirExists <;>
      simp [StdFilesystem.write, fsWrite, hd]
  have hdel : ∀ (fault : Bool) (d : Disk) (name : String),
      ((StdFilesystem.delete fault d name).2).dirExists = d.dirExists := by
    intro fault d name
    cases fault <;> cases hd : d.dirExists <;>
      simp [StdFilesystem.delete, fsRemoveFile, hd]
    cases hl : lookupFile d.files name <;> simp [hl, hd]
  refine ⟨?_, ?_, ?_, hw, hdel⟩
  · have hcase : ∀ e0, env.existsResult = .error e0 →
        (∃ msg, (inner_main env).outcome = .error msg) ∧
          (inner_main env).registered = [] := by
      intro e0 he
      refine ⟨⟨"Failed to determine if " ++ GK_DIR ++ " exists: " ++ e0, ?_⟩, ?_⟩ <;>
        simp [inner_main, he]
    have hfalse : env.existsResult = .ok false →
        (∃ msg, (inner_main env).outcome = .error msg) ∧
          (inner_main env).registered = [] := by
      intro he
      refine ⟨⟨"Required directory " ++ GK_DIR ++ " does not exist!", ?_⟩, ?_⟩ <;>
        simp [inner_main, he]
    rcases hfail with ⟨e, he⟩ | he | hnd
    · exact hcase e he
    · exact hfalse he
    · cases he : env.existsResult with
      | error e => exact hcase e he
      | ok b =>
        cases b with
        | false => exact hfalse he
        | true =>
          refine ⟨⟨"Required directory " ++ GK_DIR ++ " is not a directory!", ?_⟩, ?_⟩ <;>
            simp [inner_main, he, hnd]
  · intro he
    simp [inner_main, he]
  · intro he hnd
    simp [inner_main, he, hnd]

/-- Witness for C3: with the directory reported absent, startup fails with the
descriptive message and registers nothing. -/
theorem startup_gate_witness :
    ((∃ msg, (inner_main ⟨.ok false, false, true, true⟩).outcome = .error msg) ∧
      (inner_main ⟨.ok false, false, true, true⟩).registered = []) ∧
    (inner_main ⟨.ok false, false, true, true⟩).outcome =
      .error ("Required directory " ++ GK_DIR ++ " does not exist!") := by
  have h := startup_gate ⟨.ok false, false, true, true⟩ (Or.inr (Or.inl rfl))
  exact ⟨h.1, h.2.1 rfl⟩

/- ## Serialized channel execute (`LocalInsecureTa` / `LocalTa`) -/

/-- Observable outcome of one call to `SerializedChannel::execute`: either the
call returns a `binder::Result` to its caller, or it panics (via `expect`),
killing the calling thread / process — there is no other exit. -/
inductive ExecOutcome where
  | returns (result : Except String Bytes)
  | panics (msg : String)
  deriving Repr

/-- `LocalInsecureTa::execute` (gatekeeper `main.rs`): `send` to the TA thread
with `.expect(...)`, then `recv` with `.expect(...)`, wrapping the received
response in `Ok`. `sendOk` is false when the inbound channel endpoint is
broken (TA thread gone); `recv = none` when the outbound endpoint is broken. -/
def localInsecureTaExecute (sendOk : Bool) (recv : Option Bytes)
    (_req : Bytes) : ExecOutcome :=
  if sendOk then
    match recv with
    | some rsp => .returns (.ok rsp)
    | none => .panics "failed to receive response"
  else .panics "failed to send in request"

/-- `LocalTa::execute` (keymint `main.rs`): identical structure to the
gatekeeper bridge. -/
def localTaExecute (sendOk : Bool) (recv : Option Bytes)
    (_req : Bytes) : ExecOutcome :=
  if sendOk then
    match recv with
    | some rsp => .returns (.ok rsp)
    | none => .panics "failed to receive response"
  else .panics "failed to send in request"

/-- C7: if either channel endpoint is broken (send fails or receive fails
because the TA thread terminated), `execute` does not return a per-call error:
it panics, an unrecoverable fault of the whole service. Both bridges. -/
theorem broken_channel_panics (sendOk : Bool) (recv : Option Bytes)
    (req : Bytes) (hbroken : sendOk = false ∨ recv = none) :
    (∃ msg, localInsecureTaExecute sendOk recv req = .panics msg) ∧
    (∃ msg, localTaExecute sendOk recv req = .panics msg) ∧
    (∀ r, localInsecureTaExecute sendOk recv req ≠ .returns r) ∧
    (∀ r, localTaExecute sendOk recv req ≠ .returns r) := by
  rcases hbroken with h | h
  · subst h
    exact ⟨⟨_, rfl⟩, ⟨_, rfl⟩, fun r => by simp [localInsecureTaExecute],
      fun r => by simp [localTaExecute]⟩
  · subst h
    cases sendOk <;>
      exact ⟨⟨_, rfl⟩, ⟨_, rfl⟩, fun r => by simp [localInsecureTaExecute],
        fun r => by simp [localTaExecute]⟩

/-- Witness for C7: a broken outbound endpoint makes `execute` panic. -/
theorem broken_channel_panics_witness :
    (∃ msg, localInsecureTaExecute true none [1] = .panics msg) ∧
    (∃ msg, localTaExecute true none [1] = .panics msg) ∧
    (∀ r, localInsecureTaExecute true none [1] ≠ .returns r) ∧
    (∀ r, localTaExecute true none [1] ≠ .returns r) :=
  broken_channel_panics true none [1] (Or.inr rfl)

/-- C9: whenever `execute` returns to its caller at all, on either bridge, the
result is the `Ok` variant carrying the response bytes; the `Err` variant of
the binder `Result` is never produced, for any input. -/
theorem execute_never_binder_error :
    (∀ sendOk recv req e,
      localInsecureTaExecute sendOk recv req ≠ .returns (.error e)) ∧
    (∀ sendOk recv req e,
      localTaExecute sendOk recv req ≠ .returns (.error e)) ∧
    (∀ sendOk recv req result,
      localInsecureTaExecute sendOk recv req = .returns result →
        ∃ rsp, result = .ok rsp) ∧
    (∀ sendOk recv req result,
      localTaExecute sendOk recv req = .returns result →
        ∃ rsp, result = .ok rsp) := by
  refine ⟨?_, ?_, ?_, ?_⟩
  · intro sendOk recv req e
    cases sendOk <;> cases recv <;> simp [localInsecureTaExecute]
  · intro sendOk recv req e
    cases sendOk <;> cases recv <;> simp [localTaExecute]
  · intro sendOk recv req result h
    cases sendOk <;> cases recv <;> simp [localInsecureTaExecute] at h
    exact ⟨_, h.symm⟩
  · intro sendOk recv req result h
    cases sendOk <;> cases recv <;> simp [localTaExecute] at h
    exact ⟨_, h.symm⟩

/- ## Maximum message size (`MAX_SIZE`) -/

/-- `usize::MAX` on the 64-bit targets this service builds for. -/
def USIZE_MAX : Nat := 2 ^ 64 - 1

/-- `LocalInsecureTa::MAX_SIZE` (gatekeeper bridge): `usize::MAX`. -/
def LocalInsecureTa.MAX_SIZE : Nat := USIZE_MAX

/-- `LocalTa::MAX_SIZE` (keymint bridge): `usize::MAX`. -/
def LocalTa.MAX_SIZE : Nat := USIZE_MAX

/-- Modelled from the spec: the size gate applied by the HAL channel layer
(`gk_hal`/`kmr_hal`, outside this repository) — "oversized requests are
rejected before entering the queue": a request is rejected exactly when it is
larger than the bridge's configured `MAX_SIZE`. -/
def oversizedRejected (maxSize : Nat) (req : Bytes) : Bool :=
  decide (req.length > maxSize)

/-- C8: both bridges configure `MAX_SIZE` as `usize::MAX`, so no representable
request (whose length, a `usize`, is at most `usize::MAX`) is ever rejected as
oversized by the pre-queue size gate. -/
theorem max_size_no_rejection :
    LocalInsecureTa.MAX_SIZE = USIZE_MAX ∧ LocalTa.MAX_SIZE = USIZE_MAX ∧
    (∀ req : Bytes, req.length ≤ USIZE_MAX →
      oversizedRejected LocalInsecureTa.MAX_SIZE req = false ∧
      oversizedRejected LocalTa.MAX_SIZE req = false) := by
  refine ⟨rfl, rfl, ?_⟩
  intro req hlen
  constructor <;>
    simp [oversizedRejected, LocalInsecureTa.MAX_SIZE, LocalTa.MAX_SIZE] <;>
      omega

/-- Witness for C8 at a concrete request. -/
theorem max_size_no_rejection_witness :
    oversizedRejected LocalInsecureTa.MAX_SIZE [1, 2, 3] = false ∧
    oversizedRejected LocalTa.MAX_SIZE [1, 2, 3] = false :=
  (max_size_no_rejection.2.2 [1, 2, 3] (by simp [USIZE_MAX]))

/- ## Capability bundle wiring (`build_ta` in `ta/lib.rs`) -/

/-- Names of the concrete backends wired into the nonsecure capability
bundle by `build_ta`. -/
inductive Backend where
  | boringRng
  | stdClock
  | boringConstEq
  | boringHmacSha256
  | nonsecurePasswordKey
  | explicitAuthKey
  | stdFilesystem
  | fixedPresharedKey
  | boringAesCmac
  deriving DecidableEq, Repr

/-- `traits::SharedSecretImplementation`: a pre-shared key source (with the
key bytes it holds, for `FixedPresharedKey`) and a key-derivation backend. -/
structure SharedSecretImplementation where
  preshared_key : Backend × Bytes
  derive : Backend
  deriving DecidableEq, Repr

/-- `traits::Implementation`: the capability bundle injected into the TA
engine at construction, one handle per role, plus the directory handed to the
failure store. -/
structure Implementation where
  rng : Backend
  clock : Backend
  compare : Backend
  hmac : Backend
  password : Backend
  auth_key : Backend
  failures : Backend
  failures_dir : String
  shared_secret : Option SharedSecretImplementation
  deriving DecidableEq, Repr

/-- `SS_PRESHARED_KEY`: the all-zero 32-byte AES-256 key (`[0; 32]`). -/
def SS_PRESHARED_KEY : Bytes := List.replicate 32 0

/-- `build_ta`: assembles the nonsecure capability bundle — BoringSSL RNG,
`StdClock`, constant-time compare, HMAC-SHA256, fake password key, explicit
auth key, `StdFilesystem` over the given directory, and shared-secret
agreement enabled with the fixed all-zero pre-shared key and AES-CMAC KDF. -/
def build_ta (dir : String) : Implementation :=
  { rng := .boringRng
    clock := .stdClock
    compare := .boringConstEq
    hmac := .boringHmacSha256
    password := .nonsecurePasswordKey
    auth_key := .explicitAuthKey
    failures := .stdFilesystem
    failures_dir := dir
    shared_secret := some
      { preshared_key := (.fixedPresharedKey, SS_PRESHARED_KEY)
        derive := .boringAesCmac } }

/-- C10: for every directory, the bundle built by `build_ta` enables the
optional shared-secret agreement capability, and the pre-shared key it
supplies is the fixed 32-byte all-zero key. -/
theorem build_ta_shared_secret_zero_key :
    ∀ dir : String,
      (build_ta dir).shared_secret =
        some { preshared_key := (.fixedPresharedKey, SS_PRESHARED_KEY),
               derive := .boringAesCmac } ∧
      ((build_ta dir).shared_secret.map
        (fun s => s.preshared_key.2)) = some (List.replicate 32 0) ∧
      SS_PRESHARED_KEY.length = 32 ∧
      ∀ b ∈ SS_PRESHARED_KEY, b = 0 := by
  intro dir
  refine ⟨rfl, rfl, by decide, ?_⟩
  intro b hb
  exact List.eq_of_mem_replicate hb

/- ## Serialized Channel Bridge: concurrent execution model
(`Arc<Mutex<LocalInsecureTa>>` + mpsc channels + the TA thread loop in
`gatekeeper/.../main.rs`). Front-end threads run `execute` concurrently; each
locks the Mutex, sends its request on `in_tx`, blocks on `out_rx.recv()`,
then unlocks. The TA thread loops: `in_rx.recv()` → `ta.process` →
`out_tx.send`. -/

/-- Program counter of one front-end caller thread running one `execute`. -/
inductive CPC where
  | idle
  | acquired
  | waiting
  | gotRsp (r : Bytes)
  | done (r : Bytes)
  deriving DecidableEq, Repr

/-- Whether a caller is currently inside the channel protocol (holding the
Mutex somewhere between acquisition and release). -/
def ActiveC : CPC → Bool
  | .acquired => true
  | .waiting => true
  | .gotRsp _ => true
  | .idle => false
  | .done _ => false

/-- Global state of the bridge system: the caller threads (`pcs`, indexed by
caller), the Mutex around `LocalInsecureTa` (`mutex` holds the index of the
holder), the inbound and outbound mpsc queues, the request the TA thread is
currently processing (if any), and two ghost logs: the callers in
Mutex-acquisition order and the requests in TA processing order. -/
structure SysState where
  pcs : List CPC
  mutex : Option Nat
  inChan : List Bytes
  outChan : List Bytes
  taBusy : Option Bytes
  acqLog : List Nat
  procLog : List Bytes
  deriving DecidableEq, Repr

/-- Initial state: `n` idle callers, free Mutex, empty queues, TA thread
blocked in `in_rx.recv()`. -/
def initState (n : Nat) : SysState :=
  { pcs := List.replicate n .idle, mutex := none, inChan := [], outChan := [],
    taBusy := none, acqLog := [], procLog := [] }

/-- One interleaving step of the system, for request assignment `reqs`
(caller `i` sends `reqs i`) and engine function `process`:
`acquire`/`send`/`recv`/`release` are the caller-side instructions of
`execute` (lock, `in_tx.send`, `out_rx.recv`, unlock), `taRecv`/`taReply`
are the TA thread's loop body (`in_rx.recv`, then `process` + `out_tx.send`). -/
inductive Step (reqs : Nat → Bytes) (process : Bytes → Bytes) :
    SysState → SysState → Prop where
  | acquire (s : SysState) (i : Nat) (h1 : s.pcs[i]? = some .idle)
      (h2 : s.mutex = none) :
      Step reqs process s
        { s with pcs := s.pcs.set i .acquired, mutex := some i,
                 acqLog := s.acqLog ++ [i] }
  | send (s : SysState) (i : Nat) (h1 : s.pcs[i]? = some .acquired)
      (h2 : s.mutex = some i) :
      Step reqs process s
        { s with pcs := s.pcs.set i .waiting,
                 inChan := s.inChan ++ [reqs i] }
  | taRecv (s : SysState) (r : Bytes) (rest : List Bytes)
      (h1 : s.taBusy = none) (h2 : s.inChan = r :: rest) :
      Step reqs process s { s with inChan := rest, taBusy := some r }
  | taReply (s : SysState) (r : Bytes) (h1 : s.taBusy = some r) :
      Step reqs process s
        { s with taBusy := none, outChan := s.outChan ++ [process r],
                 procLog := s.procLog ++ [r] }
  | recv (s : SysState) (i : Nat) (rsp : Bytes) (rest : List Bytes)
      (h1 : s.pcs[i]? = some .waiting) (h2 : s.mutex = some i)
      (h3 : s.outChan = rsp :: rest) :
      Step reqs process s
        { s with pcs := s.pcs.set i (.gotRsp rsp), outChan := rest }
  | release (s : SysState) (i : Nat) (rsp : Bytes)
      (h1 : s.pcs[i]? = some (.gotRsp rsp)) (h2 : s.mutex = some i) :
      Step reqs process s
        { s with pcs := s.pcs.set i (.done rsp), mutex := none }

/-- Protocol stage of the current Mutex holder `i`: each of the five stages
pins down the queue contents, the TA state and the ghost-log relation. At
every stage at most the holder's own request is anywhere in flight. -/
def HolderInv (reqs : Nat → Bytes) (process : Bytes → Bytes) (s : SysState)
    (i : Nat) : Prop :=
  (s.pcs[i]? = some .acquired ∧ s.inChan = [] ∧ s.taBusy = none ∧
    s.outChan = [] ∧ s.acqLog.map reqs = s.procLog ++ [reqs i]) ∨
  (s.pcs[i]? = some .waiting ∧ s.inChan = [reqs i] ∧ s.taBusy = none ∧
    s.outChan = [] ∧ s.acqLog.map reqs = s.procLog ++ [reqs i]) ∨
  (s.pcs[i]? = some .waiting ∧ s.inChan = [] ∧ s.taBusy = some (reqs i) ∧
    s.outChan = [] ∧ s.acqLog.map reqs = s.procLog ++ [reqs i]) ∨
  (s.pcs[i]? = some .waiting ∧ s.inChan = [] ∧ s.taBusy = none ∧
    s.outChan = [process (reqs i)] ∧ s.acqLog.map reqs = s.procLog) ∨
  (s.pcs[i]? = some (.gotRsp (process (reqs i))) ∧ s.inChan = [] ∧
    s.taBusy = none ∧ s.outChan = [] ∧ s.acqLog.map reqs = s.procLog)


/-- Coupling of the Mutex state with the queues, the TA state and the ghost
logs: with the Mutex free nothing is in flight and the logs agree; with a
holder, one of the five holder stages. -/
def MutexInvProp (reqs : Nat → Bytes) (process : Bytes → Bytes)
    (s : SysState) : Prop :=
  match s.mutex with
  | none => s.inChan = [] ∧ s.outChan = [] ∧ s.taBusy = none ∧
      s.acqLog.map reqs = s.procLog
  | some i => HolderInv reqs process s i

lemma mutexInvProp_of_none {reqs : Nat → Bytes} {process : Bytes → Bytes}
    {s : SysState} (hm : s.mutex = none)
    (h : s.inChan = [] ∧ s.outChan = [] ∧ s.taBusy = none ∧
      s.acqLog.map reqs = s.procLog) : MutexInvProp reqs process s := by
  unfold MutexInvProp
  rw [hm]
  exact h

lemma mutexInvProp_of_holder {reqs : Nat → Bytes} {process : Bytes → Bytes}
    {s : SysState} {i : Nat} (hm : s.mutex = some i)
    (h : HolderInv reqs process s i) : MutexInvProp reqs process s := by
  unfold MutexInvProp
  rw [hm]
  exact h

lemma none_of_mutexInvProp {reqs : Nat → Bytes} {process : Bytes → Bytes}
    {s : SysState} (hm : s.mutex = none) (h : MutexInvProp reqs process s) :
    s.inChan = [] ∧ s.outChan = [] ∧ s.taBusy = none ∧
      s.acqLog.map reqs = s.procLog := by
  unfold MutexInvProp at h
  rw [hm] at h
  exact h

lemma holder_of_mutexInvProp {reqs : Nat → Bytes} {process : Bytes → Bytes}
    {s : SysState} {i : Nat} (hm : s.mutex = some i)
    (h : MutexInvProp reqs process s) : HolderInv reqs process s i := by
  unfold MutexInvProp at h
  rw [hm] at h
  exact h

/-- System invariant: lists have the right length; completed callers hold the
response to their own request; the acquisition log lists exactly the
non-idle callers, once each; non-holders are outside the protocol; and the
Mutex coupling holds. -/
structure BridgeInv (reqs : Nat → Bytes) (process : Bytes → Bytes) (n : Nat)
    (s : SysState) : Prop where
  lenEq : s.pcs.length = n
  donePaired : ∀ i r, s.pcs[i]? = some (.done r) → r = process (reqs i)
  acqMem : ∀ i, i ∈ s.acqLog ↔ (∃ c, s.pcs[i]? = some c ∧ c ≠ .idle)
  acqNodup : s.acqLog.Nodup
  nonholder : ∀ i c, s.mutex ≠ some i → s.pcs[i]? = some c →
      c = .idle ∨ ∃ r, c = .done r
  mutexInv : MutexInvProp reqs process s

lemma initState_pcs_idle {n i : Nat} {c : CPC}
    (h : (initState n).pcs[i]? = some c) : c = .idle := by
  simp only [initState, List.getElem?_replicate] at h
  by_cases hi : i < n
  · rw [if_pos hi] at h
    exact (Option.some.inj h).symm
  · rw [if_neg hi] at h
    exact absurd h (by simp)

lemma inv_init (reqs : Nat → Bytes) (process : Bytes → Bytes) (n : Nat) :
    BridgeInv reqs process n (initState n) := by
  refine ⟨?_, ?_, ?_, ?_, ?_, ?_⟩
  · simp [initState]
  · intro i r h
    exact absurd (initState_pcs_idle h) (by simp)
  · intro i
    constructor
    · intro hmem
      exact absurd hmem (by simp [initState])
    · rintro ⟨c, hc, hne⟩
      exact absurd (initState_pcs_idle hc) hne
  · simp [initState]
  · intro i c _ hc
    exact Or.inl (initState_pcs_idle hc)
  · exact mutexInvProp_of_none rfl ⟨rfl, rfl, rfl, rfl⟩

lemma getElem?_lt_length {l : List CPC} {i : Nat} {c : CPC}
    (h : l[i]? = some c) : i < l.length := by
  rcases List.getElem?_eq_some.mp h with ⟨hl, _⟩
  exact hl

lemma inv_step {reqs : Nat → Bytes} {process : Bytes → Bytes} {n : Nat}
    {s s2 : SysState} (hinv : BridgeInv reqs process n s)
    (hstep : Step reqs process s s2) : BridgeInv reqs process n s2 := by
  obtain ⟨lenEq, donePaired, acqMem, acqNodup, nonholder, mutexInv⟩ := hinv
  cases hstep with
  | acquire i h1 h2 =>
    have mc := none_of_mutexInvProp h2 mutexInv
    have hilt : i < s.pcs.length := getElem?_lt_length h1
    have hnotmem : i ∉ s.acqLog := by
      intro hmem
      rcases (acqMem i).mp hmem with ⟨c, hc, hne⟩
      rw [h1] at hc
      exact hne (Option.some.inj hc).symm
    refine ⟨?_, ?_, ?_, ?_, ?_, ?_⟩
    · show (s.pcs.set i CPC.acquired).length = n
      simpa using lenEq
    · intro j r hj
      have hj2 : (s.pcs.set i CPC.acquired)[j]? = some (CPC.done r) := hj
      by_cases hji : j = i
      · subst hji
        rw [List.getElem?_set_self hilt] at hj2
        exact absurd (Option.some.inj hj2) (by simp)
      · rw [List.getElem?_set_ne (fun h => hji h.symm)] at hj2
        exact donePaired j r hj2
    · intro j
      show j ∈ s.acqLog ++ [i] ↔
        ∃ c, (s.pcs.set i CPC.acquired)[j]? = some c ∧ c ≠ CPC.idle
      by_cases hji : j = i
      · subst hji
        constructor
        · intro _
          exact ⟨.acquired, List.getElem?_set_self hilt, by simp⟩
        · intro _
          simp
      · rw [List.getElem?_set_ne (fun h => hji h.symm), List.mem_append,
          List.mem_singleton]
        simp only [hji, or_false]
        exact acqMem j
    · show (s.acqLog ++ [i]).Nodup
      simp [List.nodup_append, acqNodup, hnotmem]
    · intro j c hj hc
      have hj2 : some i ≠ some j := hj
      have hji : j ≠ i := fun h => hj2 (by rw [h])
      have hc2 : (s.pcs.set i CPC.acquired)[j]? = some c := hc
      rw [List.getElem?_set_ne (fun h => hji h.symm)] at hc2
      exact nonholder j c (by rw [h2]; simp) hc2
    · refine mutexInvProp_of_holder rfl (Or.inl ⟨?_, mc.1, mc.2.2.1, mc.2.1, ?_⟩)
      · exact List.getElem?_set_self hilt
      · show (s.acqLog ++ [i]).map reqs = s.procLog ++ [reqs i]
        rw [List.map_append, mc.2.2.2]
        rfl
  | send i h1 h2 =>
    have mc := holder_of_mutexInvProp h2 mutexInv
    have hilt : i < s.pcs.length := getElem?_lt_length h1
    rcases mc with ⟨hpc, hin, hta, hout, hlog⟩ | ⟨hpc, _⟩ | ⟨hpc, _⟩ |
        ⟨hpc, _⟩ | ⟨hpc, _⟩
    rotate_left
    · rw [h1] at hpc
      exact absurd (Option.some.inj hpc) (by simp)
    · rw [h1] at hpc
      exact absurd (Option.some.inj hpc) (by simp)
    · rw [h1] at hpc
      exact absurd (Option.some.inj hpc) (by simp)
    · rw [h1] at hpc
      exact absurd (Option.some.inj hpc) (by simp)
    refine ⟨?_, ?_, ?_, ?_, ?_, ?_⟩
    · show (s.pcs.set i CPC.waiting).length = n
      simpa using lenEq
    · intro j r hj
      have hj2 : (s.pcs.set i CPC.waiting)[j]? = some (CPC.done r) := hj
      by_cases hji : j = i
      · subst hji
        rw [List.getElem?_set_self hilt] at hj2
        exact absurd (Option.some.inj hj2) (by simp)
      · rw [List.getElem?_set_ne (fun h => hji h.symm)] at hj2
        exact donePaired j r hj2
    · intro j
      show j ∈ s.acqLog ↔
        ∃ c, (s.pcs.set i CPC.waiting)[j]? = some c ∧ c ≠ CPC.idle
      by_cases hji : j = i
      · subst hji
        constructor
        · intro _
          exact ⟨.waiting, List.getElem?_set_self hilt, by simp⟩
        · intro _
          exact (acqMem j).mpr ⟨.acquired, h1, by simp⟩
      · rw [List.getElem?_set_ne (fun h => hji h.symm)]
        exact acqMem j
    · exact acqNodup
    · intro j c hj hc
      have hj2 : s.mutex ≠ some j := hj
      by_cases hji : j = i
      · subst hji
        exact absurd h2 hj2
      · have hc2 : (s.pcs.set i CPC.waiting)[j]? = some c := hc
        rw [List.getElem?_set_ne (fun h => hji h.symm)] at hc2
        exact nonholder j c hj2 hc2
    · refine mutexInvProp_of_holder h2
        (Or.inr (Or.inl ⟨?_, ?_, hta, hout, hlog⟩))
      · exact List.getElem?_set_self hilt
      · show s.inChan ++ [reqs i] = [reqs i]
        rw [hin]
        rfl
  | taRecv r rest h1 h2 =>
    cases hm : s.mutex with
    | none =>
      have hin := (none_of_mutexInvProp hm mutexInv).1
      rw [h2] at hin
      exact absurd hin (by simp)
    | some i =>
      have mc := holder_of_mutexInvProp hm mutexInv
      rcases mc with ⟨_, hin, _⟩ | ⟨hpc, hin, hta, hout, hlog⟩ |
          ⟨_, hin, _⟩ | ⟨_, hin, _⟩ | ⟨_, hin, _⟩
      rotate_left
      rotate_left
      · rw [h2] at hin
        exact absurd hin (by simp)
      · rw [h2] at hin
        exact absurd hin (by simp)
      · rw [h2] at hin
        exact absurd hin (by simp)
      · rw [h2] at hin
        exact absurd hin (by simp)
      rw [h2] at hin
      have hr : r = reqs i := (List.cons.inj hin).1
      have hrest : rest = [] := (List.cons.inj hin).2
      refine ⟨lenEq, donePaired, acqMem, acqNodup, ?_, ?_⟩
      · intro j c hj hc
        exact nonholder j c (by rw [hm]; exact hj) hc
      · refine mutexInvProp_of_holder rfl
          (Or.inr (Or.inr (Or.inl ⟨hpc, hrest, ?_, hout, hlog⟩)))
        show some r = some (reqs i)
        rw [hr]
  | taReply r h1 =>
    cases hm : s.mutex with
    | none =>
      have hta := (none_of_mutexInvProp hm mutexInv).2.2.1
      rw [h1] at hta
      exact absurd hta (by simp)
    | some i =>
      have mc := holder_of_mutexInvProp hm mutexInv
      rcases mc with ⟨_, _, hta, _⟩ | ⟨_, _, hta, _⟩ |
          ⟨hpc, hin, hta, hout, hlog⟩ | ⟨_, _, hta, _⟩ | ⟨_, _, hta, _⟩
      rotate_left
      rotate_left
      rotate_left
      · rw [h1] at hta
        exact absurd hta (by simp)
      · rw [h1] at hta
        exact absurd hta (by simp)
      · rw [h1] at hta
        exact absurd hta (by simp)
      · rw [h1] at hta
        exact absurd hta (by simp)
      rw [h1] at hta
      have hr : r = reqs i := Option.some.inj hta
      refine ⟨lenEq, donePaired, acqMem, acqNodup, ?_, ?_⟩
      · intro j c hj hc
        exact nonholder j c (by rw [hm]; exact hj) hc
      · refine mutexInvProp_of_holder rfl
          (Or.inr (Or.inr (Or.inr (Or.inl ⟨hpc, hin, rfl, ?_, ?_⟩))))
        · show s.outChan ++ [process r] = [process (reqs i)]
          rw [hout, hr]
          rfl
        · show s.acqLog.map reqs = s.procLog ++ [r]
          rw [hlog, hr]
  | recv i rsp rest h1 h2 h3 =>
    have mc := holder_of_mutexInvProp h2 mutexInv
    have hilt : i < s.pcs.length := getElem?_lt_length h1
    rcases mc with ⟨_, _, _, hout, _⟩ | ⟨_, _, _, hout, _⟩ |
        ⟨_, _, _, hout, _⟩ | ⟨hpc, hin, hta, hout, hlog⟩ | ⟨_, _, _, hout, _⟩
    rotate_left
    rotate_left
    rotate_left
    rotate_left
    · rw [h3] at hout
      exact absurd hout (by simp)
    · rw [h3] at hout
      exact absurd hout (by simp)
    · rw [h3] at hout
      exact absurd hout (by simp)
    · rw [h3] at hout
      exact absurd hout (by simp)
    rw [h3] at hout
    have hrsp : rsp = process (reqs i) := (List.cons.inj hout).1
    have hrest : rest = [] := (List.cons.inj hout).2
    refine ⟨?_, ?_, ?_, ?_, ?_, ?_⟩
    · show (s.pcs.set i (CPC.gotRsp rsp)).length = n
      simpa using lenEq
    · intro j r hj
      have hj2 : (s.pcs.set i (CPC.gotRsp rsp))[j]? = some (CPC.done r) := hj
      by_cases hji : j = i
      · subst hji
        rw [List.getElem?_set_self hilt] at hj2
        exact absurd (Option.some.inj hj2) (by simp)
      · rw [List.getElem?_set_ne (fun h => hji h.symm)] at hj2
        exact donePaired j r hj2
    · intro j
      show j ∈ s.acqLog ↔
        ∃ c, (s.pcs.set i (CPC.gotRsp rsp))[j]? = some c ∧ c ≠ CPC.idle
      by_cases hji : j = i
      · subst hji
        constructor
        · intro _
          exact ⟨.gotRsp rsp, List.getElem?_set_self hilt, by simp⟩
        · intro _
          exact (acqMem j).mpr ⟨.waiting, h1, by simp⟩
      · rw [List.getElem?_set_ne (fun h => hji h.symm)]
        exact acqMem j
    · exact acqNodup
    · intro j c hj hc
      have hj2 : s.mutex ≠ some j := hj
      by_cases hji : j = i
      · subst hji
        exact absurd h2 hj2
      · have hc2 : (s.pcs.set i (CPC.gotRsp rsp))[j]? = some c := hc
        rw [List.getElem?_set_ne (fun h => hji h.symm)] at hc2
        exact nonholder j c hj2 hc2
    · refine mutexInvProp_of_holder h2
        (Or.inr (Or.inr (Or.inr (Or.inr ⟨?_, hin, hta, hrest, hlog⟩))))
      rw [← hrsp]
      exact List.getElem?_set_self hilt
  | release i rsp h1 h2 =>
    have mc := holder_of_mutexInvProp h2 mutexInv
    have hilt : i < s.pcs.length := getElem?_lt_length h1
    rcases mc with ⟨hpc, _⟩ | ⟨hpc, _⟩ | ⟨hpc, _⟩ | ⟨hpc, _⟩ |
        ⟨hpc, hin, hta, hout, hlog⟩
    · rw [h1] at hpc
      exact absurd (Option.some.inj hpc) (by simp)
    · rw [h1] at hpc
      exact absurd (Option.some.inj hpc) (by simp)
    · rw [h1] at hpc
      exact absurd (Option.some.inj hpc) (by simp)
    · rw [h1] at hpc
      exact absurd (Option.some.inj hpc) (by simp)
    have hrsp : rsp = process (reqs i) := by
      rw [h1] at hpc
      exact CPC.gotRsp.inj (Option.some.inj hpc)
    refine ⟨?_, ?_, ?_, ?_, ?_, ?_⟩
    · show (s.pcs.set i (CPC.done rsp)).length = n
      simpa using lenEq
    · intro j r hj
      have hj2 : (s.pcs.set i (CPC.done rsp))[j]? = some (CPC.done r) := hj
      by_cases hji : j = i
      · subst hji
        rw [List.getElem?_set_self hilt] at hj2
        have hr : rsp = r := CPC.done.inj (Option.some.inj hj2)
        exact hr ▸ hrsp
      · rw [List.getElem?_set_ne (fun h => hji h.symm)] at hj2
        exact donePaired j r hj2
    · intro j
      show j ∈ s.acqLog ↔
        ∃ c, (s.pcs.set i (CPC.done rsp))[j]? = some c ∧ c ≠ CPC.idle
      by_cases hji : j = i
      · subst hji
        constructor
        · intro _
          exact ⟨.done rsp, List.getElem?_set_self hilt, by simp⟩
        · intro _
          exact (acqMem j).mpr ⟨.gotRsp rsp, h1, by simp⟩
      · rw [List.getElem?_set_ne (fun h => hji h.symm)]
        exact acqMem j
    · exact acqNodup
    · intro j c _ hc
      have hc2 : (s.pcs.set i (CPC.done rsp))[j]? = some c := hc
      by_cases hji : j = i
      · subst hji
        rw [List.getElem?_set_self hilt] at hc2
        exact Or.inr ⟨rsp, (Option.some.inj hc2).symm⟩
      · rw [List.getElem?_set_ne (fun h => hji h.symm)] at hc2
        exact nonholder j c
          (by rw [h2]; exact fun h => hji (Option.some.inj h).symm) hc2
    · exact mutexInvProp_of_none rfl ⟨hin, hout, hta, hlog⟩

lemma inv_reachable {reqs : Nat → Bytes} {process : Bytes → Bytes} {n : Nat}
    {s : SysState}
    (h : Relation.ReflTransGen (Step reqs process) (initState n) s) :
    BridgeInv reqs process n s := by
  induction h with
  | refl => exact inv_init reqs process n
  | tail _ hstep ih => exact inv_step ih hstep

/-- C1: in every reachable state of the bridge system, (mutual exclusion) at
most one caller is inside the channel protocol at any instant — so the
single-threaded TA engine never observes two requests concurrently; (pairing)
every caller that has completed `execute` holds exactly the engine's response
to its own request; and when all `n` callers have completed, exactly `n`
requests were processed, in the order in which the callers acquired exclusive
access (the ghost processing log equals the acquisition log mapped through
the request assignment), with no loss, duplication or interleaving. -/
theorem serialized_channel_correct (reqs : Nat → Bytes)
    (process : Bytes → Bytes) (n : Nat) (s : SysState)
    (hreach : Relation.ReflTransGen (Step reqs process) (initState n) s) :
    (∀ (i j : Nat) (ci cj : CPC), s.pcs[i]? = some ci → s.pcs[j]? = some cj →
      ActiveC ci = true → ActiveC cj = true → i = j) ∧
    (∀ (i : Nat) (r : Bytes), s.pcs[i]? = some (CPC.done r) →
      r = process (reqs i)) ∧
    ((∀ (i : Nat) (c : CPC), s.pcs[i]? = some c → ∃ r, c = CPC.done r) →
      s.procLog = s.acqLog.map reqs ∧ s.acqLog.length = n ∧
      ∀ i, i < n → s.pcs[i]? = some (CPC.done (process (reqs i)))) := by
  obtain ⟨lenEq, donePaired, acqMem, acqNodup, nonholder, mutexInv⟩ :=
    inv_reachable hreach
  have hactive : ∀ i c, s.pcs[i]? = some c → ActiveC c = true →
      s.mutex = some i := by
    intro i c hc ha
    by_contra h
    rcases nonholder i c h hc with h1 | ⟨r, h1⟩ <;> subst h1 <;>
      simp [ActiveC] at ha
  refine ⟨?_, donePaired, ?_⟩
  · intro i j ci cj hci hcj hai haj
    have h1 := hactive i ci hci hai
    have h2 := hactive j cj hcj haj
    rw [h1] at h2
    exact Option.some.inj h2
  · intro hall
    have hmnone : s.mutex = none := by
      cases hm : s.mutex with
      | none => rfl
      | some i =>
        have mc := holder_of_mutexInvProp hm mutexInv
        rcases mc with ⟨hpc, _⟩ | ⟨hpc, _⟩ | ⟨hpc, _⟩ | ⟨hpc, _⟩ |
            ⟨hpc, _⟩ <;>
          exact absurd (hall i _ hpc) (by simp)
    have mc := none_of_mutexInvProp hmnone mutexInv
    have hmem : ∀ i, i ∈ s.acqLog ↔ i < n := by
      intro i
      constructor
      · intro hmemi
        rcases (acqMem i).mp hmemi with ⟨c, hc, _⟩
        rw [← lenEq]
        exact getElem?_lt_length hc
      · intro hi
        have hi2 : i < s.pcs.length := by
          rw [lenEq]
          exact hi
        have hc := List.getElem?_eq_getElem hi2
        rcases hall i _ hc with ⟨r, hr⟩
        refine (acqMem i).mpr ⟨_, hc, ?_⟩
        rw [hr]
        simp
    refine ⟨mc.2.2.2.symm, ?_, ?_⟩
    · have hfin : s.acqLog.toFinset = Finset.range n := by
        apply Finset.ext
        intro i
        simp [List.mem_toFinset, Finset.mem_range, hmem i]
      have hcard := List.toFinset_card_of_nodup acqNodup
      rw [hfin] at hcard
      simpa using hcard.symm
    · intro i hi
      have hi2 : i < s.pcs.length := by
        rw [lenEq]
        exact hi
      have hc := List.getElem?_eq_getElem hi2
      rcases hall i _ hc with ⟨r, hr⟩
      have hpair := donePaired i r (by rw [hc, hr])
      rw [hc, hr, hpair]

/-- Request assignment for the concrete two-caller run (the spec's scenario):
caller `i` sends the single byte `i + 1`. -/
def reqs2 : Nat → Bytes := fun i => [i + 1]

/-- Echo engine stub from the spec's scenario: appends byte `0xFF`. -/
def process2 : Bytes → Bytes := fun b => b ++ [255]

/-- Final state of the concrete two-caller run: both callers completed with
their own echoed response. -/
def final2 : SysState :=
  { pcs := [CPC.done [1, 255], CPC.done [2, 255]], mutex := none,
    inChan := [], outChan := [], taBusy := none, acqLog := [0, 1],
    procLog := [[1], [2]] }

/-- Intermediate states of the concrete two-caller run. -/
def st1 : SysState :=
  ⟨[.acquired, .idle], some 0, [], [], none, [0], []⟩

def st2 : SysState :=
  ⟨[.waiting, .idle], some 0, [[1]], [], none, [0], []⟩

def st3 : SysState :=
  ⟨[.waiting, .idle], some 0, [], [], some [1], [0], []⟩

def st4 : SysState :=
  ⟨[.waiting, .idle], some 0, [], [[1, 255]], none, [0], [[1]]⟩

def st5 : SysState :=
  ⟨[.gotRsp [1, 255], .idle], some 0, [], [], none, [0], [[1]]⟩

def st6 : SysState :=
  ⟨[.done [1, 255], .idle], none, [], [], none, [0], [[1]]⟩

def st7 : SysState :=
  ⟨[.done [1, 255], .acquired], some 1, [], [], none, [0, 1], [[1]]⟩

def st8 : SysState :=
  ⟨[.done [1, 255], .waiting], some 1, [[2]], [], none, [0, 1], [[1]]⟩

def st9 : SysState :=
  ⟨[.done [1, 255], .waiting], some 1, [], [], some [2], [0, 1], [[1]]⟩

def st10 : SysState :=
  ⟨[.done [1, 255], .waiting], some 1, [], [[2, 255]], none, [0, 1], [[1], [2]]⟩

def st11 : SysState :=
  ⟨[.done [1, 255], .gotRsp [2, 255]], some 1, [], [], none, [0, 1], [[1], [2]]⟩

lemma reach_final2 :
    Relation.ReflTransGen (Step reqs2 process2) (initState 2) final2 := by
  apply Relation.ReflTransGen.head (Step.acquire (initState 2) 0 rfl rfl)
  apply Relation.ReflTransGen.head (Step.send st1 0 rfl rfl)
  apply Relation.ReflTransGen.head (Step.taRecv st2 [1] [] rfl rfl)
  apply Relation.ReflTransGen.head (Step.taReply st3 [1] rfl)
  apply Relation.ReflTransGen.head (Step.recv st4 0 [1, 255] [] rfl rfl rfl)
  apply Relation.ReflTransGen.head (Step.release st5 0 [1, 255] rfl rfl)
  apply Relation.ReflTransGen.head (Step.acquire st6 1 rfl rfl)
  apply Relation.ReflTransGen.head (Step.send st7 1 rfl rfl)
  apply Relation.ReflTransGen.head (Step.taRecv st8 [2] [] rfl rfl)
  apply Relation.ReflTransGen.head (Step.taReply st9 [2] rfl)
  apply Relation.ReflTransGen.head (Step.recv st10 1 [2, 255] [] rfl rfl rfl)
  apply Relation.ReflTransGen.head (Step.release st11 1 [2, 255] rfl rfl)
  exact Relation.ReflTransGen.refl

/-- Witness for C1: the concrete two-caller echo run reaches a final state
where each caller holds its own echoed response, both requests were
processed, and in acquisition order. -/
theorem serialized_channel_correct_witness :
    final2.procLog = final2.acqLog.map reqs2 ∧ final2.acqLog.length = 2 ∧
    (∀ i, i < 2 → final2.pcs[i]? = some (CPC.done (process2 (reqs2 i)))) := by
  refine (serialized_channel_correct reqs2 process2 2 final2 reach_final2).2.2 ?_
  intro i c hc
  rcases i with _ | _ | k
  · exact ⟨[1, 255], (Option.some.inj hc).symm⟩
  · exact ⟨[2, 255], (Option.some.inj hc).symm⟩
  · exact absurd hc (by simp [final2])
